import Mathlib

set_option maxRecDepth 16384

/-!
Shallow embedding of the documentation generator in
`src/codegen/generate-docs.ts`: JSDoc-tag driven extraction of interface and
type-alias declarations, a global type-reference map used for hyperlinking,
markdown rendering with Hugo front matter, and the output-writing pass with
stale-file deletion.  JavaScript string and number semantics that the source
relies on are modelled explicitly: the falsy test of `x || d`,
`Number.parseInt` returning NaN, `String.prototype.replace` with a string
pattern replacing only the first occurrence, and `+=` turning `undefined`
into the literal text "undefined".
-/

/-- Result of the JavaScript expression `c || d` for `c : string | undefined`
(`undefined` and the empty string are falsy). -/
def jsOrElse (c : Option String) (d : String) : String :=
  match c with
  | none => d
  | some s => if s = "" then d else s

/-- Result of the JavaScript statement `s += c` where `c : string | undefined`;
appending `undefined` appends the literal text "undefined". -/
def jsAddOptString (s : String) (c : Option String) : String :=
  match c with
  | none => s ++ "undefined"
  | some t => s ++ t

/-- JavaScript `String.prototype.trim` (whitespace stripped from both ends). -/
def jsTrim (s : String) : String :=
  ⟨((s.data.dropWhile Char.isWhitespace).reverse.dropWhile Char.isWhitespace).reverse⟩

/-- Value of a list of decimal digit characters. -/
def decDigitsToNat (l : List Char) : Nat :=
  l.foldl (fun n c => n * 10 + (c.toNat - 48)) 0

/-- JavaScript `Number.parseInt(s, 10)`: leading whitespace is skipped, an
optional sign and a maximal run of decimal digits are read, and anything after
the digits is ignored; `none` models the result `NaN` (no digits found). -/
def jsParseInt (s : String) : Option Int :=
  let l := s.data.dropWhile Char.isWhitespace
  let signRest : Int × List Char :=
    match l with
    | '-' :: r => (-1, r)
    | '+' :: r => (1, r)
    | r => (1, r)
  let digits := signRest.2.takeWhile Char.isDigit
  if digits.isEmpty then none
  else some (signRest.1 * (decDigitsToNat digits : Int))

/-- JavaScript `Array.prototype.join(sep)`. -/
def joinStrings (sep : String) : List String → String
  | [] => ""
  | [x] => x
  | x :: y :: rest => x ++ sep ++ joinStrings sep (y :: rest)

/-- Boolean test that `p` is a prefix of `l`. -/
def charsPrefixOf : List Char → List Char → Bool
  | [], _ => true
  | _ :: _, [] => false
  | a :: as, b :: bs => if a = b then charsPrefixOf as bs else false

/-- Boolean substring containment on character lists. -/
def listContainsSublist (pat : List Char) : List Char → Bool
  | [] => charsPrefixOf pat []
  | c :: rest => charsPrefixOf pat (c :: rest) || listContainsSublist pat rest

/-- Boolean substring containment on strings. -/
def containsSubstr (s pat : String) : Bool :=
  listContainsSublist pat.data s.data

/-- Count of non-overlapping occurrences of a nonempty pattern, left to right,
fuelled by the input length (each step consumes at least one character). -/
def countSubstrGo (pat : List Char) : Nat → List Char → Nat
  | 0, _ => 0
  | _ + 1, [] => 0
  | fuel + 1, c :: rest =>
    if charsPrefixOf pat (c :: rest) then
      1 + countSubstrGo pat fuel (rest.drop (pat.length - 1))
    else countSubstrGo pat fuel rest

/-- Count of non-overlapping occurrences of a nonempty pattern in a string. -/
def countSubstr (s pat : String) : Nat :=
  countSubstrGo pat.data s.data.length s.data

/-- Character-level worker for JavaScript `String.prototype.replace` with a
string pattern: only the first occurrence is replaced. -/
def replaceFirstAux (pat rep : List Char) : List Char → List Char
  | [] => if charsPrefixOf pat [] then rep else []
  | c :: rest =>
    if charsPrefixOf pat (c :: rest) then rep ++ (c :: rest).drop pat.length
    else c :: replaceFirstAux pat rep rest

/-- JavaScript `s.replace(pat, rep)` with a plain string pattern. -/
def replaceFirst (s pat rep : String) : String :=
  ⟨replaceFirstAux pat.data rep.data s.data⟩

/-- Attempt to match the regular expression `\n\s+\*\s` at the head of the
list; on success return what follows the match.  Because `*` is not a
whitespace character, the greedy `\s+` necessarily consumes the entire
whitespace run in front of it. -/
def matchExampleAsterisk (l : List Char) : Option (List Char) :=
  match l with
  | '\n' :: rest =>
    let run := rest.takeWhile Char.isWhitespace
    if run.isEmpty then none
    else
      match rest.dropWhile Char.isWhitespace with
      | '*' :: c :: rest2 => if c.isWhitespace then some rest2 else none
      | _ => none
  | _ => none

/-- Global replacement of `\n\s+\*\s` by the empty string, fuelled by the
input length (every successful match consumes at least three characters). -/
def stripAsteriskGo : Nat → List Char → List Char
  | 0, l => l
  | _ + 1, [] => []
  | fuel + 1, c :: rest =>
    match matchExampleAsterisk (c :: rest) with
    | some rem => stripAsteriskGo fuel rem
    | none => c :: stripAsteriskGo fuel rest

/-- The source's `formatExampleCode`: strips the JSDoc leading-asterisk
convention from an example block and puts a blank line in front.  The default
parameter `example = ''` applies when the tag comment is `undefined`. -/
def formatExampleCode (exampleText : Option String) : String :=
  "\n\n" ++ ⟨stripAsteriskGo (exampleText.getD "").data.length (exampleText.getD "").data⟩

/-- Character class of the entity-encoding regex in `renderType`: the range
U+00A0 to U+9999 together with the angle brackets and the ampersand. -/
def isEntityEncoded (c : Char) : Bool :=
  (0xA0 ≤ c.toNat && c.toNat ≤ 0x9999) || c = '<' || c = '>' || c = '&'

/-- Global replacement of every such character by its decimal numeric
character reference. -/
def encodeHtmlEntities (s : String) : String :=
  String.join (s.data.map fun c =>
    if isEntityEncoded c then "&#" ++ toString c.toNat ++ ";" else String.singleton c)

/-- Global replacement of newlines by spaces. -/
def collapseNewlines (s : String) : String :=
  ⟨s.data.map fun c => if c = '\n' then ' ' else c⟩

/-- JavaScript `title.split(/(?=[A-Z])/)`: the accumulator holds the current
piece reversed; a split happens in front of an uppercase letter except at the
very start of the string. -/
def splitOnUppercase : List Char → List Char → List (List Char)
  | [], acc => [acc.reverse]
  | c :: rest, acc =>
    if c.isUpper && !acc.isEmpty then acc.reverse :: splitOnUppercase rest [c]
    else splitOnUppercase rest (c :: acc)

/-- JavaScript `s.toLowerCase()` restricted to ASCII letters. -/
def jsToLowerCase (s : String) : String :=
  ⟨s.data.map Char.toLower⟩

/-- The `fileName` computation from `parseDeclaration`:
`title.split(/(?=[A-Z])/).join('-').toLowerCase()`. -/
def slugify (title : String) : String :=
  jsToLowerCase (joinStrings "-" ((splitOnUppercase title.data []).map String.mk))

/-- Hyphen insertion in front of every uppercase letter, used by the
specification-level slug below. -/
def insertHyphens : List Char → List Char
  | [] => []
  | c :: rest => (if c.isUpper then ['-', c] else [c]) ++ insertHyphens rest

/-- Slug exactly as worded by the specification: split the title at
uppercase-letter boundaries (a boundary sits in front of an uppercase letter
that is not the first character), join with hyphens, lower-case the result. -/
def slugSpec (title : String) : String :=
  match title.data with
  | [] => ""
  | c :: rest => ⟨(c :: insertHyphens rest).map Char.toLower⟩

/-- One JSDoc tag: its name and its comment text.  The repository-era
TypeScript API reports `undefined` when a tag has no text, modelled as
`none`. -/
structure JSDocTag where
  tagName : String
  comment : Option String
deriving DecidableEq

/-- A parameter of a method signature; `none` models a parameter without an
explicit type annotation, in which case the source uses the empty string. -/
structure TSParameter where
  name : String
  typeFullText : Option String
deriving DecidableEq

/-- Members of an interface body.  `typeFullText` carries
`member.type.getFullText()` when the member has a type annotation. -/
inductive TSMember where
  | propertySignature (name : String) (tags : List JSDocTag)
      (typeFullText : Option String) (fullText : String)
  | methodSignature (name : String) (tags : List JSDocTag)
      (typeFullText : Option String) (fullText : String)
      (parameters : List TSParameter)
  | otherMember
deriving DecidableEq

/-- A top-level statement: interface declaration, type-alias declaration or
anything else (which the generator ignores). -/
inductive TSStatement where
  | interfaceDeclaration (name : String) (typeParameters : List String)
      (tags : List JSDocTag) (members : List TSMember)
  | typeAliasDeclaration (name : String) (typeParameters : List String)
      (tags : List JSDocTag) (typeFullText : String)
  | otherStatement
deriving DecidableEq

structure MethodParameterInfo where
  name : String
  type : String
deriving DecidableEq

/-- The property/method split of a normalized member record. -/
inductive MemberDetail where
  | property (defaultValue : String)
  | method (parameters : List MethodParameterInfo)
deriving DecidableEq

/-- Normalized member record (the source's `MemberInfo` plus its
`PropertyInfo`/`MethodInfo` extension). -/
structure MemberInfo where
  name : String
  description : String
  type : String
  fullText : String
  detail : MemberDetail
deriving DecidableEq

/-- Normalized declaration record.  The weight is an `Option Int` because
JavaScript `Number.parseInt` can produce NaN, modelled as `none`. -/
structure DeclarationInfo where
  sourceFile : String
  sourceLine : Nat
  title : String
  fullText : String
  weight : Option Int
  category : String
  description : String
  fileName : String
deriving DecidableEq

/-- The interface/type-alias split of a normalized declaration record. -/
inductive DeclarationDetail where
  | interfaceKind (members : List MemberInfo)
  | typeAliasKind (type : String)
deriving DecidableEq

structure ParsedDeclaration where
  info : DeclarationInfo
  detail : DeclarationDetail
deriving DecidableEq

/-- A statement together with its source location, as produced by
`getStatementsWithSourceLocation`. -/
structure SourceStatement where
  statement : TSStatement
  sourceFile : String
  sourceLine : Nat
deriving DecidableEq

/-- The shared type map: title to `category/fileName`, in insertion order. -/
abbrev TypeMap := List (String × String)

/-- Effect of `parseTags` with the member-level tag matcher of `parseMembers`:
the result pair is the accumulated description and the default value. -/
def parseMemberTags (tags : List JSDocTag) : String × String :=
  tags.foldl
    (fun acc tag =>
      if tag.tagName = "description" then (acc.1 ++ jsOrElse tag.comment "", acc.2)
      else if tag.tagName = "example" then (acc.1 ++ formatExampleCode tag.comment, acc.2)
      else if tag.tagName = "default" then (acc.1, jsOrElse tag.comment "")
      else acc)
    ("", "")

/-- The member type text: `member.type.getFullText().trim()` when the member
has a type annotation, the empty string otherwise. -/
def memberTypeText (typeFullText : Option String) : String :=
  match typeFullText with
  | some t => jsTrim t
  | none => ""

/-- The source's `parseMembers`: property and method signatures are kept in
order, everything else is skipped. -/
def parseMembers (members : List TSMember) : List MemberInfo :=
  members.foldl
    (fun result member =>
      match member with
      | .propertySignature name tags typeFullText fullText =>
        result ++ [{ name, description := (parseMemberTags tags).1,
                     type := memberTypeText typeFullText, fullText,
                     detail := .property (parseMemberTags tags).2 }]
      | .methodSignature name tags typeFullText fullText parameters =>
        result ++ [{ name, description := (parseMemberTags tags).1,
                     type := memberTypeText typeFullText, fullText,
                     detail := .method (parameters.map fun p =>
                       { name := p.name, type := p.typeFullText.getD "" }) }]
      | .otherMember => result)
    []

/-- The source's `getDocsCategory`: the `docsCategory` handler assigns
`tag.comment || ''`, so a tag with an empty comment still yields `some`. -/
def getDocsCategory (tags : List JSDocTag) : Option String :=
  tags.foldl
    (fun category tag =>
      if tag.tagName = "docsCategory" then some (jsOrElse tag.comment "") else category)
    none

/-- The source's `getDeclarationWeight`:
`weight = Number.parseInt(tag.comment || '10', 10)` with initial value 10. -/
def getDeclarationWeight (tags : List JSDocTag) : Option Int :=
  tags.foldl
    (fun weight tag =>
      if tag.tagName = "docsWeight" then jsParseInt (jsOrElse tag.comment "10") else weight)
    (some 10)

/-- The source's `getDeclarationDescription`: `description += tag.comment`
has no empty-string guard, so an `undefined` comment appends "undefined". -/
def getDeclarationDescription (tags : List JSDocTag) : String :=
  tags.foldl
    (fun description tag =>
      if tag.tagName = "description" then jsAddOptString description tag.comment
      else description)
    ""

/-- The source's `getDeclarationFullText`: the declaration name plus any type
parameters. -/
def getDeclarationFullText (name : String) (typeParameters : List String) : String :=
  if typeParameters.isEmpty then name
  else name ++ "<" ++ joinStrings ", " typeParameters ++ ">"

/-- Type guard `isValidDeclaration`. -/
def isValidDeclaration : TSStatement → Bool
  | .interfaceDeclaration .. => true
  | .typeAliasDeclaration .. => true
  | .otherStatement => false

/-- JSDoc tags attached to a statement. -/
def statementTags : TSStatement → List JSDocTag
  | .interfaceDeclaration _ _ tags _ => tags
  | .typeAliasDeclaration _ _ tags _ => tags
  | .otherStatement => []

/-- Presence of a `docsCategory` tag, with any comment text or none at all. -/
def hasDocsCategoryTag (statement : TSStatement) : Bool :=
  (statementTags statement).any fun tag => tag.tagName = "docsCategory"

/-- The source's `parseDeclaration`: invalid statements and statements whose
`getDocsCategory` is `undefined` are dropped; otherwise the normalized record
is built. -/
def parseDeclaration (statement : TSStatement) (sourceFile : String) (sourceLine : Nat) :
    Option ParsedDeclaration :=
  match statement with
  | .interfaceDeclaration name typeParameters tags members =>
    match getDocsCategory tags with
    | none => none
    | some category =>
      some { info := { sourceFile, sourceLine, title := name,
                       fullText := getDeclarationFullText name typeParameters,
                       weight := getDeclarationWeight tags, category,
                       description := getDeclarationDescription tags,
                       fileName := slugify name },
             detail := .interfaceKind (parseMembers members) }
  | .typeAliasDeclaration name typeParameters tags typeFullText =>
    match getDocsCategory tags with
    | none => none
    | some category =>
      some { info := { sourceFile, sourceLine, title := name,
                       fullText := getDeclarationFullText name typeParameters,
                       weight := getDeclarationWeight tags, category,
                       description := getDeclarationDescription tags,
                       fileName := slugify name },
             detail := .typeAliasKind (jsTrim typeFullText) }
  | .otherStatement => none

def docsPath : String := "/docs/api/"

/-- The source's `renderType`: entity-encode, collapse newlines, then turn
each known type name into a hyperlink by a string replacement (which in
JavaScript replaces only the first occurrence), in map insertion order. -/
def renderType (type : String) (knownTypeMap : TypeMap) : String :=
  knownTypeMap.foldl
    (fun typeText kv =>
      replaceFirst typeText kv.1
        ("<a href=\x27" ++ docsPath ++ "/" ++ kv.2 ++ "/\x27>" ++ kv.1 ++ "</a>"))
    (collapseNewlines (encodeHtmlEntities (jsTrim type)))

/-- Template interpolation of a JavaScript number that may be NaN. -/
def jsNumberToString : Option Int → String
  | none => "NaN"
  | some n => toString n

/-- Template interpolation of a JavaScript boolean. -/
def jsBoolToString : Bool → String
  | true => "true"
  | false => "false"

/-- The source's `generateFrontMatter`; `date` stands for the value of
`new Date().toISOString()` at the call. -/
def generateFrontMatter (title : String) (weight : Option Int) (date : String)
    (showToc : Bool) : String :=
  "---\ntitle: \"" ++ title ++ "\"\nweight: " ++ jsNumberToString weight
    ++ "\ndate: " ++ date ++ "\nshowtoc: " ++ jsBoolToString showToc
    ++ "\ngenerated: true\n---\n<!-- This file was generated from the Vendure TypeScript source. Do not modify. Instead, re-run \"generate-docs\" -->\n"

def renderGenerationInfoShortcode (info : DeclarationInfo) : String :=
  "\x7b\x7b< generation-info sourceFile=\"" ++ info.sourceFile
    ++ "\" sourceLine=\"" ++ toString info.sourceLine ++ "\">\x7d\x7d\n\n"

/-- One member section of `renderInterface` (the body of its member loop):
heading, member-info shortcode with kind, rendered type and optional default
marker, then the member description. -/
def renderMemberSection (knownTypeMap : TypeMap) (member : MemberInfo) : String :=
  match member.detail with
  | .property defaultValue =>
    "### " ++ member.name ++ "\n\n\x7b\x7b< member-info kind=\"property\" type=\""
      ++ renderType member.type knownTypeMap ++ "\" "
      ++ (if defaultValue ≠ "" then "default=\"" ++ defaultValue ++ "\" " else "")
      ++ ">\x7d\x7d\n\n" ++ member.description ++ "\n\n"
  | .method parameters =>
    "### " ++ member.name ++ "\n\n\x7b\x7b< member-info kind=\"method\" type=\"("
      ++ joinStrings ", " (parameters.map fun p =>
            p.name ++ ": " ++ renderType p.type knownTypeMap)
      ++ ") => " ++ renderType member.type knownTypeMap ++ "\" "
      ++ ">\x7d\x7d\n\n" ++ member.description ++ "\n\n"

/-- The source's `renderInterfaceSignature`. -/
def renderInterfaceSignature (fullText : String) (members : List MemberInfo) : String :=
  "```ts\ninterface " ++ fullText ++ " \x7b\n"
    ++ joinStrings "\n" (members.map fun m => "  " ++ m.fullText)
    ++ "\n\x7d\n```\n"

/-- The source's `renderInterface`. -/
def renderInterface (info : DeclarationInfo) (members : List MemberInfo)
    (knownTypeMap : TypeMap) (date : String) : String :=
  generateFrontMatter info.title info.weight date true
    ++ "\n\n# " ++ info.title ++ "\n\n"
    ++ renderGenerationInfoShortcode info
    ++ info.description ++ "\n\n"
    ++ "## Signature\n\n"
    ++ renderInterfaceSignature info.fullText members
    ++ "## Members\n\n"
    ++ String.join (members.map (renderMemberSection knownTypeMap))

/-- The source's `renderTypeAlias` (its `knownTypeMap` parameter is unused). -/
def renderTypeAlias (info : DeclarationInfo) (type : String)
    (_knownTypeMap : TypeMap) (date : String) : String :=
  generateFrontMatter info.title info.weight date true
    ++ "\n\n# " ++ info.title ++ "\n\n"
    ++ renderGenerationInfoShortcode info
    ++ info.description ++ "\n\n"
    ++ "## Signature\n\n"
    ++ "```ts\ntype " ++ info.fullText ++ " = " ++ type ++ ";\n```"

/-- Dispatch on the record kind, as in the switch of `generateDocs`. -/
def renderDeclaration (declaration : ParsedDeclaration) (knownTypeMap : TypeMap)
    (date : String) : String :=
  match declaration.detail with
  | .interfaceKind members => renderInterface declaration.info members knownTypeMap date
  | .typeAliasKind type => renderTypeAlias declaration.info type knownTypeMap date

/-- JavaScript `Map.prototype.set`: overwrite in place, else append. -/
def typeMapSet (m : TypeMap) (key value : String) : TypeMap :=
  if m.any (fun kv => kv.1 = key) then
    m.map fun kv => if kv.1 = key then (key, value) else kv
  else m ++ [(key, value)]

/-- Events of a generation pass, used to state the ordering guarantee. -/
inductive DocEvent where
  | register (title : String)
  | render (title : String)
deriving DecidableEq

/-- First phase of `generateDocs`: map every statement through
`parseDeclaration`, registering each produced record's title in the type map
as a side effect, and keep the produced records (the map followed by
`filter(notNullOrUndefined)`).  The third component logs one `register` event
per produced record, in order. -/
def collectDeclarationInfos (statements : List SourceStatement) (typeMap : TypeMap) :
    List ParsedDeclaration × TypeMap × List DocEvent :=
  statements.foldl
    (fun acc st =>
      match parseDeclaration st.statement st.sourceFile st.sourceLine with
      | some info =>
        (acc.1 ++ [info],
         typeMapSet acc.2.1 info.info.title (info.info.category ++ "/" ++ info.info.fileName),
         acc.2.2 ++ [DocEvent.register info.info.title])
      | none => acc)
    ([], typeMap, [])

/-- The output tree: a set of directories and a path-to-content file map. -/
structure FileSystem where
  dirs : List String
  files : List (String × String)
deriving DecidableEq

def emptyFS : FileSystem := { dirs := [], files := [] }

def lookupAssoc : List (String × String) → String → Option String
  | [], _ => none
  | (q, c) :: rest, p => if q = p then some c else lookupAssoc rest p

def writeAssoc : List (String × String) → String → String → List (String × String)
  | [], p, c => [(p, c)]
  | (q, d) :: rest, p, c => if q = p then (p, c) :: rest else (q, d) :: writeAssoc rest p c

def fsLookup (fs : FileSystem) (p : String) : Option String := lookupAssoc fs.files p

/-- `fs.existsSync` on a file path. -/
def fsExistsFile (fs : FileSystem) (p : String) : Bool := (fsLookup fs p).isSome

/-- `fs.writeFileSync`: overwrite unconditionally. -/
def fsWriteFile (fs : FileSystem) (p content : String) : FileSystem :=
  { fs with files := writeAssoc fs.files p content }

/-- `fs.unlinkSync`. -/
def fsUnlinkFile (fs : FileSystem) (p : String) : FileSystem :=
  { fs with files := fs.files.filter fun f => decide (f.1 ≠ p) }

/-- `fs.mkdirSync`. -/
def fsMkdir (fs : FileSystem) (p : String) : FileSystem :=
  { fs with dirs := fs.dirs ++ [p] }

def pathJoin (a b : String) : String := a ++ "/" ++ b

/-- Body of the output loop of `generateDocs` for one record: render, ensure
the category directory exists, ensure the category index document exists
(create with minimal heading and generation metadata when absent), then write
the declaration document unconditionally. -/
def writeDeclarationDoc (hugoApiDocsPath : String) (typeMap : TypeMap) (date : String)
    (fs : FileSystem) (info : ParsedDeclaration) : FileSystem :=
  let markdown := renderDeclaration info typeMap date
  let categoryDir := pathJoin hugoApiDocsPath info.info.category
  let indexFile := pathJoin categoryDir "_index.md"
  let fs1 := if fs.dirs.contains categoryDir then fs else fsMkdir fs categoryDir
  let fs2 :=
    if fsExistsFile fs1 indexFile then fs1
    else fsWriteFile fs1 indexFile
      (generateFrontMatter info.info.category (some 10) date false
        ++ "\n\n# " ++ info.info.category)
  fsWriteFile fs2 (pathJoin categoryDir (info.info.fileName ++ ".md")) markdown

/-- The source's `generateDocs` over already-parsed statements: collect and
register all records first, then render and write each one. -/
def generateDocs (statements : List SourceStatement) (hugoApiDocsPath : String)
    (typeMap : TypeMap) (fs : FileSystem) (date : String) : TypeMap × FileSystem :=
  let collected := collectDeclarationInfos statements typeMap
  (collected.2.1, collected.1.foldl (writeDeclarationDoc hugoApiDocsPath collected.2.1 date) fs)

/-- Event trace of a `generateDocs` pass: the registration events of the
collection phase followed by one render event per record, in loop order. -/
def generateDocsEvents (statements : List SourceStatement) (typeMap : TypeMap) :
    List DocEvent :=
  let collected := collectDeclarationInfos statements typeMap
  collected.2.2 ++ collected.1.map fun d => DocEvent.render d.info.title

/-- The source's `isGenerated`: the regex `/generated\: true\n---\n/` tests
plain substring containment of the marker. -/
def isGenerated (content : String) : Bool :=
  containsSubstr content "generated: true\n---\n"

/-- The source's `deleteGeneratedDocs` pre-pass: walk all files, delete those
whose content matches the machine-generated marker. -/
def deleteGeneratedDocs (fs : FileSystem) : FileSystem :=
  fs.files.foldl
    (fun acc f => if isGenerated f.2 then fsUnlinkFile acc f.1 else acc)
    fs

/-- Everything of the front matter in front of the date value. -/
def frontMatterPre (title : String) (weight : Option Int) : String :=
  "---\ntitle: \"" ++ title ++ "\"\nweight: " ++ jsNumberToString weight ++ "\ndate: "

/-- Everything of the front matter after the date value. -/
def frontMatterPost (showToc : Bool) : String :=
  "\nshowtoc: " ++ jsBoolToString showToc
    ++ "\ngenerated: true\n---\n<!-- This file was generated from the Vendure TypeScript source. Do not modify. Instead, re-run \"generate-docs\" -->\n"

/-- Everything of an interface document after the front matter. -/
def renderInterfaceBody (info : DeclarationInfo) (members : List MemberInfo)
    (knownTypeMap : TypeMap) : String :=
  "\n\n# " ++ info.title ++ "\n\n"
    ++ renderGenerationInfoShortcode info
    ++ info.description ++ "\n\n"
    ++ "## Signature\n\n"
    ++ renderInterfaceSignature info.fullText members
    ++ "## Members\n\n"
    ++ String.join (members.map (renderMemberSection knownTypeMap))

/-- Everything of a type-alias document after the front matter. -/
def renderTypeAliasBody (info : DeclarationInfo) (type : String) : String :=
  "\n\n# " ++ info.title ++ "\n\n"
    ++ renderGenerationInfoShortcode info
    ++ info.description ++ "\n\n"
    ++ "## Signature\n\n"
    ++ "```ts\ntype " ++ info.fullText ++ " = " ++ type ++ ";\n```"

/-- Two file lists that differ only in an embedded date segment: pointwise
equal paths, contents equal up to swapping the date value. -/
def FilesDateSwapped (d1 d2 : String) : List (String × String) → List (String × String) → Prop
  | [], [] => True
  | f1 :: r1, f2 :: r2 =>
    f1.1 = f2.1 ∧ (∃ A B, f1.2 = A ++ d1 ++ B ∧ f2.2 = A ++ d2 ++ B)
      ∧ FilesDateSwapped d1 d2 r1 r2
  | _, _ => False

/-! Basic lemmas about the split-join-lowercase slug computation. -/

theorem splitOnUppercaseNeNil (l acc : List Char) : splitOnUppercase l acc ≠ [] := by
  induction l generalizing acc with
  | nil => simp [splitOnUppercase]
  | cons c rest ih =>
    unfold splitOnUppercase
    by_cases h : c.isUpper && !acc.isEmpty
    · simp [h]
    · simp [h, ih]

theorem joinStringsCons (x : String) (ys : List String) (h : ys ≠ []) :
    joinStrings "-" (x :: ys) = x ++ "-" ++ joinStrings "-" ys := by
  cases ys with
  | nil => exact absurd rfl h
  | cons y t => rfl

theorem dashData : ("-" : String).data = ['-'] := rfl

theorem joinSplitOnUppercase (l acc : List Char) (h : acc ≠ []) :
    joinStrings "-" ((splitOnUppercase l acc).map String.mk)
      = String.mk (acc.reverse ++ insertHyphens l) := by
  induction l generalizing acc with
  | nil =>
    simp [splitOnUppercase, joinStrings, insertHyphens]
  | cons c rest ih =>
    rw [splitOnUppercase]
    by_cases hc : (c.isUpper && !acc.isEmpty) = true
    · rw [if_pos hc, List.map_cons,
        joinStringsCons _ _ (fun hnil =>
          splitOnUppercaseNeNil rest [c] (List.map_eq_nil_iff.mp hnil)),
        ih [c] (by simp)]
      have hupper : c.isUpper = true := by
        cases h' : c.isUpper with
        | true => rfl
        | false => rw [h'] at hc; simp at hc
      apply String.ext
      simp [String.data_append, dashData, insertHyphens, hupper]
    · rw [if_neg hc, ih (c :: acc) (by simp)]
      have hne : acc.isEmpty = false := by
        cases acc with
        | nil => exact absurd rfl h
        | cons a as => rfl
      have hnotupper : c.isUpper = false := by
        cases h' : c.isUpper with
        | false => rfl
        | true => rw [h', hne] at hc; simp at hc
      apply congrArg String.mk
      simp [insertHyphens, hnotupper]

theorem slugifyEqSlugSpec (title : String) : slugify title = slugSpec title := by
  obtain ⟨l⟩ := title
  cases l with
  | nil => rfl
  | cons c rest =>
    unfold slugify slugSpec
    have hstep : splitOnUppercase (c :: rest) [] = splitOnUppercase rest [c] := by
      rw [splitOnUppercase]
      simp
    rw [hstep, joinSplitOnUppercase rest [c] (by simp)]
    rfl

/-! Lemmas about the tag-dispatch folds. -/

theorem weightFoldSkip (tags : List JSDocTag) (acc : Option Int)
    (h : ∀ t ∈ tags, t.tagName ≠ "docsWeight") :
    tags.foldl
      (fun weight tag =>
        if tag.tagName = "docsWeight" then jsParseInt (jsOrElse tag.comment "10") else weight)
      acc = acc := by
  induction tags generalizing acc with
  | nil => rfl
  | cons t ts ih =>
    have ht : t.tagName ≠ "docsWeight" := h t (List.mem_cons_self t ts)
    simp only [List.foldl_cons, if_neg ht]
    exact ih acc fun x hx => h x (List.mem_cons_of_mem t hx)

theorem getDeclarationWeightLast (pre post : List JSDocTag) (c : Option String)
    (h : ∀ t ∈ post, t.tagName ≠ "docsWeight") :
    getDeclarationWeight (pre ++ ⟨"docsWeight", c⟩ :: post) = jsParseInt (jsOrElse c "10") := by
  unfold getDeclarationWeight
  rw [List.foldl_append, List.foldl_cons]
  simp only [if_pos rfl]
  exact weightFoldSkip post _ h

/-- C2 counterexample: a weight tag carrying the malformed value "abc" does
not yield the default 10; `Number.parseInt("abc", 10)` is NaN, modelled as
`none`. -/
theorem malformedWeightYieldsNaN_cex :
    getDeclarationWeight [⟨"docsWeight", some "abc"⟩] = none
      ∧ getDeclarationWeight [⟨"docsWeight", some "abc"⟩] ≠ some 10 := by
  decide

/-- C2 (amended): a declaration with no weight tag gets the default weight
10, and a weight tag with a missing or empty value also yields 10 because the
code parses the fallback string "10"; but a weight tag whose value has no
leading integer (such as "abc") yields NaN (`none`), not 10 — in general the
extracted weight is `Number.parseInt` of the tag value. -/
theorem weightTagFallback (tags pre post : List JSDocTag) (c : Option String) :
    ((∀ t ∈ tags, t.tagName ≠ "docsWeight") → getDeclarationWeight tags = some 10)
    ∧ ((∀ t ∈ post, t.tagName ≠ "docsWeight") →
        getDeclarationWeight (pre ++ ⟨"docsWeight", c⟩ :: post) = jsParseInt (jsOrElse c "10"))
    ∧ ((∀ t ∈ post, t.tagName ≠ "docsWeight") →
        getDeclarationWeight (pre ++ ⟨"docsWeight", none⟩ :: post) = some 10)
    ∧ ((∀ t ∈ post, t.tagName ≠ "docsWeight") →
        getDeclarationWeight (pre ++ ⟨"docsWeight", some "abc"⟩ :: post) = none) := by
  refine ⟨?_, ?_, ?_, ?_⟩
  · intro h
    exact weightFoldSkip tags (some 10) h
  · intro h
    exact getDeclarationWeightLast pre post c h
  · intro h
    rw [getDeclarationWeightLast pre post none h]
    rfl
  · intro h
    rw [getDeclarationWeightLast pre post (some "abc") h]
    rfl

/-- Witness for C2 at concrete inputs. -/
theorem weightTagFallback_witness :
    getDeclarationWeight [⟨"docsCategory", some "common"⟩] = some 10
    ∧ getDeclarationWeight [⟨"docsCategory", some "common"⟩, ⟨"docsWeight", none⟩] = some 10 := by
  constructor
  · exact (weightTagFallback [⟨"docsCategory", some "common"⟩] [] [] none).1 (by decide)
  · exact (weightTagFallback [] [⟨"docsCategory", some "common"⟩] [] none).2.2.1 (by decide)

/-- C10: a declaration-level description tag with no comment text appends the
literal string "undefined" to the extracted description (no empty-string
guard), while the member-level handler of the same tag leaves the member
description and default value unchanged (it guards with an empty-string
fallback). -/
theorem declarationDescriptionUndefinedAppend (pre : List JSDocTag) :
    getDeclarationDescription (pre ++ [⟨"description", none⟩])
        = getDeclarationDescription pre ++ "undefined"
    ∧ (parseMemberTags (pre ++ [⟨"description", none⟩])).1 = (parseMemberTags pre).1
    ∧ (parseMemberTags (pre ++ [⟨"description", none⟩])).2 = (parseMemberTags pre).2 := by
  refine ⟨?_, ?_, ?_⟩
  · unfold getDeclarationDescription
    rw [List.foldl_append]
    simp [jsAddOptString]
  · unfold parseMemberTags
    rw [List.foldl_append]
    simp [jsOrElse]
  · unfold parseMemberTags
    rw [List.foldl_append]
    simp [jsOrElse]

/-! Emission is controlled by presence of the category tag. -/

theorem getDocsCategoryIsSome (tags : List JSDocTag) (acc : Option String) :
    (tags.foldl
      (fun category tag =>
        if tag.tagName = "docsCategory" then some (jsOrElse tag.comment "") else category)
      acc).isSome
      = (acc.isSome || tags.any fun t => decide (t.tagName = "docsCategory")) := by
  induction tags generalizing acc with
  | nil => simp
  | cons t ts ih =>
    simp only [List.foldl_cons, List.any_cons, ih]
    by_cases h : t.tagName = "docsCategory"
    · simp [h]
    · simp [h]

theorem collectFoldFixed (sts : List SourceStatement)
    (acc : List ParsedDeclaration × TypeMap × List DocEvent)
    (h : ∀ s ∈ sts, parseDeclaration s.statement s.sourceFile s.sourceLine = none) :
    sts.foldl
      (fun acc st =>
        match parseDeclaration st.statement st.sourceFile st.sourceLine with
        | some info =>
          (acc.1 ++ [info],
           typeMapSet acc.2.1 info.info.title (info.info.category ++ "/" ++ info.info.fileName),
           acc.2.2 ++ [DocEvent.register info.info.title])
        | none => acc)
      acc = acc := by
  induction sts generalizing acc with
  | nil => rfl
  | cons s ss ih =>
    have hs := h s (List.mem_cons_self s ss)
    simp only [List.foldl_cons, hs]
    exact ih acc fun x hx => h x (List.mem_cons_of_mem s hx)

/-- C1 counterexample: a declaration carrying a `docsCategory` tag with no
comment text — hence no non-empty category value — is still emitted (with the
empty string as category) and its title is still registered in the type map,
under path `"/foo"`. -/
theorem emptyCategoryTagStillEmitted_cex :
    (parseDeclaration (.interfaceDeclaration "Foo" [] [⟨"docsCategory", none⟩] []) "f.ts" 1).isSome
        = true
    ∧ (collectDeclarationInfos
        [⟨.interfaceDeclaration "Foo" [] [⟨"docsCategory", none⟩] [], "f.ts", 1⟩] []).2.1
        = [("Foo", "/foo")] := by
  decide

/-- C1 (amended): a declaration record is emitted if and only if the
declaration is an interface or type alias carrying a `docsCategory` tag —
the tag's value may be empty; and when no statement produces a record,
nothing is emitted and the type map is unchanged. -/
theorem categoryTagPresenceGate (st : TSStatement) (f : String) (l : Nat)
    (sts : List SourceStatement) (tm : TypeMap) :
    ((parseDeclaration st f l).isSome = (isValidDeclaration st && hasDocsCategoryTag st))
    ∧ ((∀ s ∈ sts, parseDeclaration s.statement s.sourceFile s.sourceLine = none) →
        (collectDeclarationInfos sts tm).1 = [] ∧ (collectDeclarationInfos sts tm).2.1 = tm) := by
  constructor
  · cases st with
    | interfaceDeclaration name tps tags members =>
      have hmain : (getDocsCategory tags).isSome
          = hasDocsCategoryTag (.interfaceDeclaration name tps tags members) := by
        unfold hasDocsCategoryTag statementTags getDocsCategory
        simpa using getDocsCategoryIsSome tags none
      simp only [parseDeclaration]
      cases hcat : getDocsCategory tags with
      | none =>
        rw [hcat] at hmain
        simp [isValidDeclaration, ← hmain]
      | some category =>
        rw [hcat] at hmain
        simp [isValidDeclaration, ← hmain]
    | typeAliasDeclaration name tps tags typeFullText =>
      have hmain : (getDocsCategory tags).isSome
          = hasDocsCategoryTag (.typeAliasDeclaration name tps tags typeFullText) := by
        unfold hasDocsCategoryTag statementTags getDocsCategory
        simpa using getDocsCategoryIsSome tags none
      simp only [parseDeclaration]
      cases hcat : getDocsCategory tags with
      | none =>
        rw [hcat] at hmain
        simp [isValidDeclaration, ← hmain]
      | some category =>
        rw [hcat] at hmain
        simp [isValidDeclaration, ← hmain]
    | otherStatement => rfl
  · intro h
    unfold collectDeclarationInfos
    rw [collectFoldFixed sts ([], tm, []) h]
    exact ⟨rfl, rfl⟩

/-- Witness for C1 at a concrete input. -/
theorem categoryTagPresenceGate_witness :
    (collectDeclarationInfos [⟨.otherStatement, "g.ts", 1⟩] []).1 = []
    ∧ (collectDeclarationInfos [⟨.otherStatement, "g.ts", 1⟩] []).2.1 = [] :=
  (categoryTagPresenceGate .otherStatement "g.ts" 1 [⟨.otherStatement, "g.ts", 1⟩] []).2
    (by decide)

/-! One record per qualifying declaration. -/

theorem collectFoldLength (sts : List SourceStatement)
    (acc : List ParsedDeclaration × TypeMap × List DocEvent) :
    (sts.foldl
      (fun acc st =>
        match parseDeclaration st.statement st.sourceFile st.sourceLine with
        | some info =>
          (acc.1 ++ [info],
           typeMapSet acc.2.1 info.info.title (info.info.category ++ "/" ++ info.info.fileName),
           acc.2.2 ++ [DocEvent.register info.info.title])
        | none => acc)
      acc).1.length
      = acc.1.length
        + (sts.filter fun s =>
            (parseDeclaration s.statement s.sourceFile s.sourceLine).isSome).length := by
  induction sts generalizing acc with
  | nil => simp
  | cons s ss ih =>
    rw [List.foldl_cons, List.filter_cons]
    cases hp : parseDeclaration s.statement s.sourceFile s.sourceLine with
    | none => simp [hp, ih]
    | some info =>
      simp only [hp, ih, Option.isSome_some, if_pos, List.length_append, List.length_cons]
      simp
      omega

/-- C4: for every declaration with a category tag the derived file name is
exactly the specification slug — the title split at uppercase-letter
boundaries, hyphen-joined and lower-cased — including on the worked examples,
and the collection phase produces exactly one record per statement whose
`parseDeclaration` succeeds. -/
theorem fileNameSlugCorrect (title : String) (st : TSStatement) (f : String) (l : Nat)
    (d : ParsedDeclaration) (sts : List SourceStatement) (tm : TypeMap) :
    slugify title = slugSpec title
    ∧ slugSpec "ProductVariant" = "product-variant"
    ∧ slugSpec "ShippingMethodQuote" = "shipping-method-quote"
    ∧ (parseDeclaration st f l = some d → d.info.fileName = slugSpec d.info.title)
    ∧ (collectDeclarationInfos sts tm).1.length
        = (sts.filter fun s =>
            (parseDeclaration s.statement s.sourceFile s.sourceLine).isSome).length := by
  refine ⟨slugifyEqSlugSpec title, rfl, rfl, ?_, ?_⟩
  · intro hparse
    cases st with
    | interfaceDeclaration name tps tags members =>
      simp only [parseDeclaration] at hparse
      cases hcat : getDocsCategory tags with
      | none => rw [hcat] at hparse; cases hparse
      | some category =>
        rw [hcat] at hparse
        have hd := Option.some.inj hparse
        subst hd
        exact slugifyEqSlugSpec name
    | typeAliasDeclaration name tps tags typeFullText =>
      simp only [parseDeclaration] at hparse
      cases hcat : getDocsCategory tags with
      | none => rw [hcat] at hparse; cases hparse
      | some category =>
        rw [hcat] at hparse
        have hd := Option.some.inj hparse
        subst hd
        exact slugifyEqSlugSpec name
    | otherStatement => cases hparse
  · unfold collectDeclarationInfos
    rw [collectFoldLength]
    simp

/-- Witness for C4 at a concrete input. -/
theorem fileNameSlugCorrect_witness :
    parseDeclaration (.interfaceDeclaration "FooBar" [] [⟨"docsCategory", some "common"⟩] [])
        "f.ts" 3
      = some { info := { sourceFile := "f.ts", sourceLine := 3, title := "FooBar",
                         fullText := "FooBar", weight := some 10, category := "common",
                         description := "", fileName := "foo-bar" },
               detail := .interfaceKind [] }
    ∧ ({ info := { sourceFile := "f.ts", sourceLine := 3, title := "FooBar",
                   fullText := "FooBar", weight := some 10, category := "common",
                   description := "", fileName := "foo-bar" },
         detail := .interfaceKind [] } : ParsedDeclaration).info.fileName
        = slugSpec "FooBar" :=
  ⟨by decide,
   (fileNameSlugCorrect "FooBar" (.interfaceDeclaration "FooBar" []
       [⟨"docsCategory", some "common"⟩] []) "f.ts" 3
       { info := { sourceFile := "f.ts", sourceLine := 3, title := "FooBar",
                   fullText := "FooBar", weight := some 10, category := "common",
                   description := "", fileName := "foo-bar" },
         detail := .interfaceKind [] } [] []).2.2.2.1 (by decide)⟩

/-! The stale-file deletion pre-pass. -/

theorem lookupFilterNe (l : List (String × String)) (p q : String) :
    lookupAssoc (l.filter fun f => decide (f.1 ≠ q)) p
      = if p = q then none else lookupAssoc l p := by
  induction l with
  | nil => by_cases hpq : p = q <;> simp [lookupAssoc, hpq]
  | cons f rest ih =>
    obtain ⟨a, c⟩ := f
    rw [List.filter_cons]
    by_cases haq : a = q
    · rw [if_neg (by simp [haq]), ih]
      by_cases hpq : p = q
      · rw [if_pos hpq, if_pos hpq]
      · have hap : ¬a = p := fun h => hpq ((h.symm).trans haq)
        rw [if_neg hpq, if_neg hpq, lookupAssoc, if_neg hap]
    · rw [if_pos (by simp [haq]), lookupAssoc]
      by_cases hap : a = p
      · have hpq : ¬p = q := fun h => haq (hap.trans h)
        rw [if_pos hap, if_neg hpq, lookupAssoc, if_pos hap]
      · rw [if_neg hap, ih]
        by_cases hpq : p = q
        · rw [if_pos hpq, if_pos hpq]
        · rw [if_neg hpq, if_neg hpq, lookupAssoc, if_neg hap]

theorem fsUnlinkLookup (fs : FileSystem) (p q : String) :
    fsLookup (fsUnlinkFile fs q) p = if p = q then none else fsLookup fs p :=
  lookupFilterNe fs.files p q

theorem deleteFoldLookup (todo : List (String × String)) (acc : FileSystem) (p : String) :
    fsLookup
      (todo.foldl (fun acc f => if isGenerated f.2 then fsUnlinkFile acc f.1 else acc) acc) p
      = if ∃ f ∈ todo, isGenerated f.2 = true ∧ f.1 = p then none else fsLookup acc p := by
  induction todo generalizing acc with
  | nil => simp
  | cons f fs ih =>
    rw [List.foldl_cons]
    by_cases hg : isGenerated f.2 = true
    · rw [if_pos hg, ih]
      by_cases hex : ∃ g ∈ fs, isGenerated g.2 = true ∧ g.1 = p
      · rw [if_pos hex, if_pos]
        obtain ⟨g, hgm, hgg, hgp⟩ := hex
        exact ⟨g, List.mem_cons_of_mem f hgm, hgg, hgp⟩
      · rw [if_neg hex, fsUnlinkLookup]
        by_cases hp : p = f.1
        · rw [if_pos hp, if_pos]
          exact ⟨f, List.mem_cons_self f fs, hg, hp.symm⟩
        · rw [if_neg hp, if_neg]
          rintro ⟨g, hgm, hgg, hgp⟩
          rcases List.mem_cons.mp hgm with hgf | hgm'
          · exact hp (hgf ▸ hgp).symm
          · exact hex ⟨g, hgm', hgg, hgp⟩
    · rw [if_neg hg, ih]
      by_cases hex : ∃ g ∈ fs, isGenerated g.2 = true ∧ g.1 = p
      · rw [if_pos hex, if_pos]
        obtain ⟨g, hgm, hgg, hgp⟩ := hex
        exact ⟨g, List.mem_cons_of_mem f hgm, hgg, hgp⟩
      · rw [if_neg hex, if_neg]
        rintro ⟨g, hgm, hgg, hgp⟩
        rcases List.mem_cons.mp hgm with hgf | hgm'
        · exact hg (hgf ▸ hgg)
        · exact hex ⟨g, hgm', hgg, hgp⟩

theorem lookupAssocMem (l : List (String × String)) (p c : String)
    (h : lookupAssoc l p = some c) : (p, c) ∈ l := by
  induction l with
  | nil => cases h
  | cons f rest ih =>
    obtain ⟨a, b⟩ := f
    rw [lookupAssoc] at h
    by_cases hap : a = p
    · rw [if_pos hap] at h
      have hb := Option.some.inj h
      subst hap; subst hb
      exact List.mem_cons_self _ _
    · rw [if_neg hap] at h
      exact List.mem_cons_of_mem _ (ih h)

theorem lookupAssocOfMem (l : List (String × String)) (hnodup : (l.map Prod.fst).Nodup)
    (f : String × String) (hf : f ∈ l) : lookupAssoc l f.1 = some f.2 := by
  induction l with
  | nil => cases hf
  | cons g rest ih =>
    obtain ⟨a, b⟩ := g
    rcases List.mem_cons.mp hf with hfg | hfm
    · subst hfg
      simp [lookupAssoc]
    · rw [List.map_cons] at hnodup
      have hpair := List.nodup_cons.mp hnodup
      have hane : a ≠ f.1 := by
        intro hcontra
        apply hpair.1
        rw [hcontra]
        exact List.mem_map.mpr ⟨f, hfm, rfl⟩
      rw [lookupAssoc, if_neg hane]
      exact ih hpair.2 hfm

/-- C5: the pre-pass deletes exactly the files whose content matches the
machine-generated marker: afterwards a file is present with content `c` if
and only if it was present with content `c` before and `c` does not match the
marker — files without the marker are left untouched. -/
theorem deleteGeneratedDocsExact (fs : FileSystem) (p c : String)
    (hnodup : (fs.files.map Prod.fst).Nodup) :
    fsLookup (deleteGeneratedDocs fs) p = some c
      ↔ (fsLookup fs p = some c ∧ isGenerated c = false) := by
  unfold deleteGeneratedDocs
  rw [deleteFoldLookup]
  by_cases hex : ∃ f ∈ fs.files, isGenerated f.2 = true ∧ f.1 = p
  · rw [if_pos hex]
    constructor
    · intro h; cases h
    · rintro ⟨hlook, hgen⟩
      obtain ⟨f, hfmem, hfgen, hfp⟩ := hex
      have huniq := lookupAssocOfMem fs.files hnodup f hfmem
      rw [hfp] at huniq
      have : f.2 = c := Option.some.inj ((huniq.symm).trans hlook)
      rw [this, hgen] at hfgen
      cases hfgen
  · rw [if_neg hex]
    constructor
    · intro hlook
      refine ⟨hlook, ?_⟩
      cases hq : isGenerated c with
      | false => rfl
      | true => exact absurd ⟨(p, c), lookupAssocMem fs.files p c hlook, hq, rfl⟩ hex
    · exact fun h => h.1

/-- Witness for C5: a tree with one generated and one manual file; the
manual one survives with its content unchanged. -/
theorem deleteGeneratedDocsExact_witness :
    fsLookup
      (deleteGeneratedDocs
        { dirs := [],
          files := [("out/a.md", "x\ngenerated: true\n---\ny"), ("out/b.md", "manual")] })
      "out/b.md" = some "manual" :=
  (deleteGeneratedDocsExact
    { dirs := [],
      files := [("out/a.md", "x\ngenerated: true\n---\ny"), ("out/b.md", "manual")] }
    "out/b.md" "manual" (by decide)).mpr ⟨by decide, by decide⟩

/-! Hyperlinking replaces only the first occurrence. -/

theorem charsPrefixOfAppendSelf (p b : List Char) : charsPrefixOf p (p ++ b) = true := by
  induction p with
  | nil => rfl
  | cons a as ih => simp [charsPrefixOf, ih]

theorem replaceFirstAuxDecomp (pat rep b : List Char) (hpat : pat ≠ []) :
    ∀ a : List Char,
      (∀ i, i < a.length → charsPrefixOf pat ((a ++ pat ++ b).drop i) = false) →
      replaceFirstAux pat rep (a ++ pat ++ b) = a ++ rep ++ b := by
  intro a
  induction a with
  | nil =>
    intro _
    cases pat with
    | nil => exact absurd rfl hpat
    | cons pc pr =>
      simp only [List.nil_append, List.cons_append]
      rw [replaceFirstAux]
      rw [if_pos (show charsPrefixOf (pc :: pr) (pc :: (pr ++ b)) = true from
        charsPrefixOfAppendSelf (pc :: pr) b)]
      simp [List.drop_left]
  | cons x a' ih =>
    intro hfirst
    have h0 : charsPrefixOf pat (x :: (a' ++ (pat ++ b))) = false := by
      have := hfirst 0 (by simp)
      simpa using this
    have hrw : ((x :: a') ++ pat) ++ b = x :: (a' ++ (pat ++ b)) := by simp
    have hrest := ih fun i hi => by
      have := hfirst (i + 1) (by simp; omega)
      simpa using this
    rw [hrw, replaceFirstAux, if_neg (by simp [h0]),
        show a' ++ (pat ++ b) = (a' ++ pat) ++ b from (List.append_assoc a' pat b).symm,
        hrest]
    simp

/-- C3 counterexample: with `ShippingMethod` registered at
`category/shipping-method`, a rendered type string containing the title twice
gets exactly one hyperlink; the second occurrence is left bare, so not every
occurrence of the title is wrapped. -/
theorem hyperlinkOnlyFirstOccurrence_cex :
    renderType "ShippingMethod | ShippingMethod"
        [("ShippingMethod", "category/shipping-method")]
      = "<a href=\x27/docs/api//category/shipping-method/\x27>ShippingMethod</a> | ShippingMethod"
    ∧ countSubstr "ShippingMethod | ShippingMethod" "ShippingMethod" = 2
    ∧ countSubstr
        (renderType "ShippingMethod | ShippingMethod"
          [("ShippingMethod", "category/shipping-method")])
        "<a href=\x27" = 1 := by
  refine ⟨rfl, by decide, by decide⟩

/-- C3 (amended): for a registered title, only the first occurrence of the
title inside the escaped and newline-collapsed type string is wrapped in a
hyperlink pointing at `/docs/api//category/fileName/`; everything before and
after it — including any later occurrences — is reproduced unchanged. -/
theorem hyperlinkFirstOccurrence (t k v : String) (a b : List Char)
    (hk : k.data ≠ [])
    (hdecomp : (collapseNewlines (encodeHtmlEntities (jsTrim t))).data = a ++ k.data ++ b)
    (hfirst : ∀ i, i < a.length →
      charsPrefixOf k.data ((a ++ k.data ++ b).drop i) = false) :
    (renderType t [(k, v)]).data
      = a ++ ("<a href=\x27" ++ docsPath ++ "/" ++ v ++ "/\x27>" ++ k ++ "</a>").data ++ b := by
  unfold renderType
  simp only [List.foldl_cons, List.foldl_nil]
  show (replaceFirst (collapseNewlines (encodeHtmlEntities (jsTrim t))) k _).data = _
  unfold replaceFirst
  show replaceFirstAux k.data _ (collapseNewlines (encodeHtmlEntities (jsTrim t))).data = _
  rw [hdecomp]
  exact replaceFirstAuxDecomp k.data _ b hk a hfirst

/-- Witness for C3 at a concrete input: `Array<ShippingMethod>` escapes to
`Array&#60;ShippingMethod&#62;` and the single occurrence gets wrapped. -/
theorem hyperlinkFirstOccurrence_witness :
    (renderType "Array<ShippingMethod>" [("ShippingMethod", "category/shipping-method")]).data
      = "Array&#60;".data
        ++ ("<a href=\x27" ++ docsPath ++ "/" ++ "category/shipping-method" ++ "/\x27>"
            ++ "ShippingMethod" ++ "</a>").data
        ++ "&#62;".data :=
  hyperlinkFirstOccurrence "Array<ShippingMethod>" "ShippingMethod"
    "category/shipping-method" "Array&#60;".data "&#62;".data
    (by decide) (by decide) (by decide)

/-! Registration happens before any rendering. -/

theorem collectEventsAreRegs (sts : List SourceStatement)
    (acc : List ParsedDeclaration × TypeMap × List DocEvent)
    (hacc : ∀ e ∈ acc.2.2, ∃ t, e = DocEvent.register t) :
    ∀ e ∈ (sts.foldl
      (fun acc st =>
        match parseDeclaration st.statement st.sourceFile st.sourceLine with
        | some info =>
          (acc.1 ++ [info],
           typeMapSet acc.2.1 info.info.title (info.info.category ++ "/" ++ info.info.fileName),
           acc.2.2 ++ [DocEvent.register info.info.title])
        | none => acc)
      acc).2.2, ∃ t, e = DocEvent.register t := by
  induction sts generalizing acc with
  | nil => exact hacc
  | cons s ss ih =>
    rw [List.foldl_cons]
    cases hp : parseDeclaration s.statement s.sourceFile s.sourceLine with
    | none =>
      simp only [hp]
      exact ih acc hacc
    | some info =>
      simp only [hp]
      apply ih
      intro e he
      rcases List.mem_append.mp he with hin | hsingle
      · exact hacc e hin
      · rcases List.mem_singleton.mp hsingle with rfl
        exact ⟨info.info.title, rfl⟩

/-- C6: in the event trace of a generation pass, every title-registration
event precedes every render event: all records of the pass are registered in
the Type Reference Index before any declaration of the pass is rendered. -/
theorem registrationPrecedesRendering (sts : List SourceStatement) (tm : TypeMap)
    (i j : Nat) (t u : String)
    (hi : (generateDocsEvents sts tm)[i]? = some (DocEvent.register t))
    (hj : (generateDocsEvents sts tm)[j]? = some (DocEvent.render u)) :
    i < j := by
  unfold generateDocsEvents at hi hj
  have hregs : ∀ e ∈ (collectDeclarationInfos sts tm).2.2, ∃ t', e = DocEvent.register t' :=
    collectEventsAreRegs sts ([], tm, []) (by simp)
  have hlen : i < (collectDeclarationInfos sts tm).2.2.length := by
    by_contra hge
    push_neg at hge
    rw [List.getElem?_append_right hge] at hi
    have hmem := List.getElem?_mem hi
    obtain ⟨d, _, heq⟩ := List.mem_map.mp hmem
    simp at heq
  have hjlen : (collectDeclarationInfos sts tm).2.2.length ≤ j := by
    by_contra hlt
    push_neg at hlt
    rw [List.getElem?_append_left hlt] at hj
    have hmem := List.getElem?_mem hj
    obtain ⟨t', ht'⟩ := hregs _ hmem
    simp at ht'
  omega

/-- Witness for C6: a pass over two documented declarations produces the
trace register-register-render-render, and the theorem applies at the
concrete positions 0 (a register event) and 2 (a render event). -/
theorem registrationPrecedesRendering_witness : (0 : Nat) < 2 :=
  registrationPrecedesRendering
    [⟨.interfaceDeclaration "Aaa" [] [⟨"docsCategory", some "c"⟩] [], "f.ts", 1⟩,
     ⟨.typeAliasDeclaration "Bbb" [] [⟨"docsCategory", some "c"⟩] "string", "f.ts", 9⟩]
    [] 0 2 "Aaa" "Aaa" (by decide) (by decide)

/-! The default-value marker of a property member section. -/

theorem memberFoldDefaultFixed (tags : List JSDocTag) (acc : String × String)
    (h : ∀ t ∈ tags, t.tagName ≠ "default") :
    (tags.foldl
      (fun acc tag =>
        if tag.tagName = "description" then (acc.1 ++ jsOrElse tag.comment "", acc.2)
        else if tag.tagName = "example" then (acc.1 ++ formatExampleCode tag.comment, acc.2)
        else if tag.tagName = "default" then (acc.1, jsOrElse tag.comment "")
        else acc)
      acc).2 = acc.2 := by
  induction tags generalizing acc with
  | nil => rfl
  | cons t ts ih =>
    have ht := h t (List.mem_cons_self t ts)
    rw [List.foldl_cons]
    have hstep : ((if t.tagName = "description" then (acc.1 ++ jsOrElse t.comment "", acc.2)
        else if t.tagName = "example" then (acc.1 ++ formatExampleCode t.comment, acc.2)
        else if t.tagName = "default" then (acc.1, jsOrElse t.comment "")
        else acc)).2 = acc.2 := by
      by_cases h1 : t.tagName = "description"
      · rw [if_pos h1]
      · rw [if_neg h1]
        by_cases h2 : t.tagName = "example"
        · rw [if_pos h2]
        · rw [if_neg h2, if_neg ht]
    rw [ih _ (fun x hx => h x (List.mem_cons_of_mem t hx)), hstep]

theorem parseMemberTagsNoDefault (tags : List JSDocTag)
    (h : ∀ t ∈ tags, t.tagName ≠ "default") : (parseMemberTags tags).2 = "" :=
  memberFoldDefaultFixed tags ("", "") h

theorem parseMemberTagsLastDefault (pre post : List JSDocTag) (c : Option String)
    (h : ∀ t ∈ post, t.tagName ≠ "default") :
    (parseMemberTags (pre ++ ⟨"default", c⟩ :: post)).2 = jsOrElse c "" := by
  unfold parseMemberTags
  rw [List.foldl_append, List.foldl_cons]
  rw [memberFoldDefaultFixed post _ h]
  rfl

/-- C7: a property member whose effective (last) default tag carries the text
"5" is parsed with default value "5" and its member-info shortcode carries
the marker text `default="5" `; a property member with no default tag at all
is parsed with the empty default value and its shortcode is built with the
empty string in the default-marker slot, i.e. no default marker. -/
theorem defaultValueMarker (name : String) (tf : Option String) (ft : String)
    (tags pre post : List JSDocTag) (tm : TypeMap) :
    ((∀ t ∈ post, t.tagName ≠ "default") →
      parseMembers [.propertySignature name (pre ++ ⟨"default", some "5"⟩ :: post) tf ft]
        = [{ name := name,
             description := (parseMemberTags (pre ++ ⟨"default", some "5"⟩ :: post)).1,
             type := memberTypeText tf, fullText := ft,
             detail := .property "5" }]
      ∧ ∀ desc ty ft',
          renderMemberSection tm
            { name := name, description := desc, type := ty, fullText := ft',
              detail := .property "5" }
          = "### " ++ name ++ "\n\n\x7b\x7b< member-info kind=\"property\" type=\""
              ++ renderType ty tm ++ "\" " ++ "default=\"5\" " ++ ">\x7d\x7d\n\n"
              ++ desc ++ "\n\n")
    ∧ ((∀ t ∈ tags, t.tagName ≠ "default") →
      parseMembers [.propertySignature name tags tf ft]
        = [{ name := name, description := (parseMemberTags tags).1,
             type := memberTypeText tf, fullText := ft, detail := .property "" }]
      ∧ ∀ desc ty ft',
          renderMemberSection tm
            { name := name, description := desc, type := ty, fullText := ft',
              detail := .property "" }
          = "### " ++ name ++ "\n\n\x7b\x7b< member-info kind=\"property\" type=\""
              ++ renderType ty tm ++ "\" " ++ "" ++ ">\x7d\x7d\n\n" ++ desc ++ "\n\n") := by
  constructor
  · intro hpost
    constructor
    · calc parseMembers [.propertySignature name (pre ++ ⟨"default", some "5"⟩ :: post) tf ft]
          = [{ name := name,
               description := (parseMemberTags (pre ++ ⟨"default", some "5"⟩ :: post)).1,
               type := memberTypeText tf, fullText := ft,
               detail := .property (parseMemberTags (pre ++ ⟨"default", some "5"⟩ :: post)).2 }] :=
            rfl
        _ = _ := by rw [parseMemberTagsLastDefault pre post (some "5") hpost]; rfl
    · intro desc ty ft'
      rfl
  · intro hnone
    constructor
    · calc parseMembers [.propertySignature name tags tf ft]
          = [{ name := name, description := (parseMemberTags tags).1,
               type := memberTypeText tf, fullText := ft,
               detail := .property (parseMemberTags tags).2 }] := rfl
        _ = _ := by rw [parseMemberTagsNoDefault tags hnone]
    · intro desc ty ft'
      rfl

/-- Witness for C7 at the concrete member `bar: string`. -/
theorem defaultValueMarker_witness :
    parseMembers [.propertySignature "bar" [⟨"default", some "5"⟩] (some " string") "bar: string"]
      = [{ name := "bar", description := "", type := "string", fullText := "bar: string",
           detail := .property "5" }]
    ∧ renderMemberSection []
        { name := "bar", description := "", type := "string", fullText := "bar: string",
          detail := .property "5" }
      = "### bar\n\n\x7b\x7b< member-info kind=\"property\" type=\"string\" default=\"5\" >\x7d\x7d\n\n\n\n" := by
  constructor
  · exact (((defaultValueMarker "bar" (some " string") "bar: string" [] [] [] []).1
      (by decide)).1).trans (by rfl)
  · exact (((defaultValueMarker "bar" (some " string") "bar: string" [] [] [] []).1
      (by decide)).2 "" "string" "bar: string").trans (by rfl)

/-! Two runs over the same input differ only in the embedded date. -/

theorem generateFrontMatterDecomp (title : String) (weight : Option Int) (date : String)
    (showToc : Bool) :
    generateFrontMatter title weight date showToc
      = frontMatterPre title weight ++ date ++ frontMatterPost showToc := by
  simp [generateFrontMatter, frontMatterPre, frontMatterPost, String.append_assoc]

theorem renderInterfaceDecomp (info : DeclarationInfo) (members : List MemberInfo)
    (tm : TypeMap) (date : String) :
    renderInterface info members tm date
      = frontMatterPre info.title info.weight ++ date
          ++ (frontMatterPost true ++ renderInterfaceBody info members tm) := by
  simp [renderInterface, renderInterfaceBody, generateFrontMatterDecomp, String.append_assoc]

theorem renderTypeAliasDecomp (info : DeclarationInfo) (ty : String)
    (tm : TypeMap) (date : String) :
    renderTypeAlias info ty tm date
      = frontMatterPre info.title info.weight ++ date
          ++ (frontMatterPost true ++ renderTypeAliasBody info ty) := by
  simp [renderTypeAlias, renderTypeAliasBody, generateFrontMatterDecomp, String.append_assoc]

theorem renderDeclarationDecomp (dcl : ParsedDeclaration) (tm : TypeMap) :
    ∃ A B, ∀ d, renderDeclaration dcl tm d = A ++ d ++ B := by
  obtain ⟨info, detail⟩ := dcl
  cases detail with
  | interfaceKind members =>
    exact ⟨frontMatterPre info.title info.weight,
      frontMatterPost true ++ renderInterfaceBody info members tm,
      fun d => renderInterfaceDecomp info members tm d⟩
  | typeAliasKind ty =>
    exact ⟨frontMatterPre info.title info.weight,
      frontMatterPost true ++ renderTypeAliasBody info ty,
      fun d => renderTypeAliasDecomp info ty tm d⟩

theorem indexContentDecomp (category date : String) :
    generateFrontMatter category (some 10) date false ++ "\n\n# " ++ category
      = frontMatterPre category (some 10) ++ date
          ++ (frontMatterPost false ++ ("\n\n# " ++ category)) := by
  simp [generateFrontMatterDecomp, String.append_assoc]

theorem fdsLookupIsSome (d1 d2 : String) :
    ∀ l1 l2, FilesDateSwapped d1 d2 l1 l2 →
      ∀ p, (lookupAssoc l1 p).isSome = (lookupAssoc l2 p).isSome := by
  intro l1
  induction l1 with
  | nil =>
    intro l2 h p
    cases l2 with
    | nil => rfl
    | cons f r => exact h.elim
  | cons f1 r1 ih =>
    intro l2 h p
    cases l2 with
    | nil => exact h.elim
    | cons f2 r2 =>
      obtain ⟨q1, c1⟩ := f1
      obtain ⟨q2, c2⟩ := f2
      obtain ⟨hpath, _, hrest⟩ := h
      have hq : q1 = q2 := hpath
      rw [lookupAssoc, lookupAssoc]
      by_cases hp : q1 = p
      · rw [if_pos hp, if_pos (hq ▸ hp)]
        rfl
      · rw [if_neg hp, if_neg fun hc => hp (hq.trans hc)]
        exact ih r2 hrest p

theorem fdsWriteAssoc (d1 d2 p A B : String) :
    ∀ l1 l2, FilesDateSwapped d1 d2 l1 l2 →
      FilesDateSwapped d1 d2 (writeAssoc l1 p (A ++ d1 ++ B)) (writeAssoc l2 p (A ++ d2 ++ B)) := by
  intro l1
  induction l1 with
  | nil =>
    intro l2 h
    cases l2 with
    | nil => exact ⟨rfl, ⟨A, B, rfl, rfl⟩, trivial⟩
    | cons f r => exact h.elim
  | cons f1 r1 ih =>
    intro l2 h
    cases l2 with
    | nil => exact h.elim
    | cons f2 r2 =>
      obtain ⟨q1, c1⟩ := f1
      obtain ⟨q2, c2⟩ := f2
      obtain ⟨hpath, hcontent, hrest⟩ := h
      have hq12 : q1 = q2 := hpath
      rw [writeAssoc, writeAssoc]
      by_cases hq : q1 = p
      · rw [if_pos hq, if_pos (hq12 ▸ hq)]
        exact ⟨rfl, ⟨A, B, rfl, rfl⟩, hrest⟩
      · rw [if_neg hq, if_neg fun hc => hq (hq12.trans hc)]
        exact ⟨hpath, hcontent, ih r2 hrest⟩

theorem writeDeclarationDocSwapped (root : String) (tm : TypeMap) (d1 d2 : String)
    (info : ParsedDeclaration) (fs1 fs2 : FileSystem)
    (hdirs : fs1.dirs = fs2.dirs) (hfds : FilesDateSwapped d1 d2 fs1.files fs2.files) :
    (writeDeclarationDoc root tm d1 fs1 info).dirs
        = (writeDeclarationDoc root tm d2 fs2 info).dirs
    ∧ FilesDateSwapped d1 d2 (writeDeclarationDoc root tm d1 fs1 info).files
        (writeDeclarationDoc root tm d2 fs2 info).files := by
  unfold writeDeclarationDoc
  have hstage1 :
      (if fs1.dirs.contains (pathJoin root info.info.category) then fs1
       else fsMkdir fs1 (pathJoin root info.info.category)).dirs
        = (if fs2.dirs.contains (pathJoin root info.info.category) then fs2
           else fsMkdir fs2 (pathJoin root info.info.category)).dirs
      ∧ FilesDateSwapped d1 d2
          (if fs1.dirs.contains (pathJoin root info.info.category) then fs1
           else fsMkdir fs1 (pathJoin root info.info.category)).files
          (if fs2.dirs.contains (pathJoin root info.info.category) then fs2
           else fsMkdir fs2 (pathJoin root info.info.category)).files := by
    by_cases hc : fs1.dirs.contains (pathJoin root info.info.category) = true
    · have hc2 : fs2.dirs.contains (pathJoin root info.info.category) = true := by
        rw [← hdirs]; exact hc
      rw [if_pos hc, if_pos hc2]
      exact ⟨hdirs, hfds⟩
    · have hc2 : ¬(fs2.dirs.contains (pathJoin root info.info.category) = true) := by
        rw [← hdirs]; exact hc
      rw [if_neg hc, if_neg hc2]
      refine ⟨?_, hfds⟩
      show fs1.dirs ++ _ = fs2.dirs ++ _
      rw [hdirs]
  set g1 := if fs1.dirs.contains (pathJoin root info.info.category) then fs1
    else fsMkdir fs1 (pathJoin root info.info.category) with hg1
  set g2 := if fs2.dirs.contains (pathJoin root info.info.category) then fs2
    else fsMkdir fs2 (pathJoin root info.info.category) with hg2
  have hstage2 :
      (if fsExistsFile g1 (pathJoin (pathJoin root info.info.category) "_index.md") then g1
       else fsWriteFile g1 (pathJoin (pathJoin root info.info.category) "_index.md")
         (generateFrontMatter info.info.category (some 10) d1 false
           ++ "\n\n# " ++ info.info.category)).dirs
        = (if fsExistsFile g2 (pathJoin (pathJoin root info.info.category) "_index.md") then g2
           else fsWriteFile g2 (pathJoin (pathJoin root info.info.category) "_index.md")
             (generateFrontMatter info.info.category (some 10) d2 false
               ++ "\n\n# " ++ info.info.category)).dirs
      ∧ FilesDateSwapped d1 d2
          (if fsExistsFile g1 (pathJoin (pathJoin root info.info.category) "_index.md") then g1
           else fsWriteFile g1 (pathJoin (pathJoin root info.info.category) "_index.md")
             (generateFrontMatter info.info.category (some 10) d1 false
               ++ "\n\n# " ++ info.info.category)).files
          (if fsExistsFile g2 (pathJoin (pathJoin root info.info.category) "_index.md") then g2
           else fsWriteFile g2 (pathJoin (pathJoin root info.info.category) "_index.md")
             (generateFrontMatter info.info.category (some 10) d2 false
               ++ "\n\n# " ++ info.info.category)).files := by
    have hexeq : fsExistsFile g1 (pathJoin (pathJoin root info.info.category) "_index.md")
        = fsExistsFile g2 (pathJoin (pathJoin root info.info.category) "_index.md") :=
      fdsLookupIsSome d1 d2 g1.files g2.files hstage1.2 _
    by_cases hex : fsExistsFile g1 (pathJoin (pathJoin root info.info.category) "_index.md") = true
    · rw [if_pos hex, if_pos (hexeq ▸ hex)]
      exact hstage1
    · rw [if_neg hex, if_neg fun hc => hex (hexeq.symm ▸ hc)]
      refine ⟨hstage1.1, ?_⟩
      show FilesDateSwapped d1 d2
        (writeAssoc g1.files _ _) (writeAssoc g2.files _ _)
      rw [indexContentDecomp info.info.category d1, indexContentDecomp info.info.category d2]
      exact fdsWriteAssoc d1 d2 _ _ _ g1.files g2.files hstage1.2
  set h1 := if fsExistsFile g1 (pathJoin (pathJoin root info.info.category) "_index.md") then g1
    else fsWriteFile g1 (pathJoin (pathJoin root info.info.category) "_index.md")
      (generateFrontMatter info.info.category (some 10) d1 false
        ++ "\n\n# " ++ info.info.category) with hh1
  set h2 := if fsExistsFile g2 (pathJoin (pathJoin root info.info.category) "_index.md") then g2
    else fsWriteFile g2 (pathJoin (pathJoin root info.info.category) "_index.md")
      (generateFrontMatter info.info.category (some 10) d2 false
        ++ "\n\n# " ++ info.info.category) with hh2
  obtain ⟨A, B, hAB⟩ := renderDeclarationDecomp info tm
  refine ⟨hstage2.1, ?_⟩
  show FilesDateSwapped d1 d2 (writeAssoc h1.files _ (renderDeclaration info tm d1))
    (writeAssoc h2.files _ (renderDeclaration info tm d2))
  rw [hAB d1, hAB d2]
  exact fdsWriteAssoc d1 d2 _ _ _ h1.files h2.files hstage2.2

theorem writeFoldSwapped (infos : List ParsedDeclaration) (root : String) (tm : TypeMap)
    (d1 d2 : String) (fs1 fs2 : FileSystem)
    (hdirs : fs1.dirs = fs2.dirs) (hfds : FilesDateSwapped d1 d2 fs1.files fs2.files) :
    (infos.foldl (writeDeclarationDoc root tm d1) fs1).dirs
        = (infos.foldl (writeDeclarationDoc root tm d2) fs2).dirs
    ∧ FilesDateSwapped d1 d2 (infos.foldl (writeDeclarationDoc root tm d1) fs1).files
        (infos.foldl (writeDeclarationDoc root tm d2) fs2).files := by
  induction infos generalizing fs1 fs2 with
  | nil => exact ⟨hdirs, hfds⟩
  | cons i is ih =>
    rw [List.foldl_cons, List.foldl_cons]
    have hstep := writeDeclarationDocSwapped root tm d1 d2 i fs1 fs2 hdirs hfds
    exact ih _ _ hstep.1 hstep.2

/-- C8: with a cleared output tree, two full passes over the same statements
that differ only in the generation timestamp produce the same type map, the
same directories, and pointwise the same files whose contents are
byte-identical except for the embedded date value. -/
theorem runsDifferOnlyInTimestamp (sts : List SourceStatement) (root d1 d2 : String) :
    (generateDocs sts root [] emptyFS d1).1 = (generateDocs sts root [] emptyFS d2).1
    ∧ ((generateDocs sts root [] emptyFS d1).2).dirs
        = ((generateDocs sts root [] emptyFS d2).2).dirs
    ∧ FilesDateSwapped d1 d2 ((generateDocs sts root [] emptyFS d1).2).files
        ((generateDocs sts root [] emptyFS d2).2).files := by
  have hmain := writeFoldSwapped (collectDeclarationInfos sts []).1 root
    (collectDeclarationInfos sts []).2.1 d1 d2 emptyFS emptyFS rfl trivial
  exact ⟨rfl, hmain.1, hmain.2⟩

/-! Index files are created once; declaration documents are overwritten. -/

def indexFilePath (root category : String) : String :=
  pathJoin (pathJoin root category) "_index.md"

def declarationDocPath (root : String) (info : ParsedDeclaration) : String :=
  pathJoin (pathJoin root info.info.category) (info.info.fileName ++ ".md")

/-- Content of a freshly created category index document. -/
def categoryIndexContent (category date : String) : String :=
  generateFrontMatter category (some 10) date false ++ "\n\n# " ++ category

theorem lookupWriteAssocSelf (l : List (String × String)) (p c : String) :
    lookupAssoc (writeAssoc l p c) p = some c := by
  induction l with
  | nil => simp [writeAssoc, lookupAssoc]
  | cons f rest ih =>
    obtain ⟨q, d⟩ := f
    rw [writeAssoc]
    by_cases hq : q = p
    · rw [if_pos hq, lookupAssoc, if_pos rfl]
    · rw [if_neg hq, lookupAssoc, if_neg hq]
      exact ih

theorem lookupWriteAssocNe (l : List (String × String)) (p q c : String) (hne : q ≠ p) :
    lookupAssoc (writeAssoc l q c) p = lookupAssoc l p := by
  induction l with
  | nil => simp [writeAssoc, lookupAssoc, hne]
  | cons f rest ih =>
    obtain ⟨a, b⟩ := f
    rw [writeAssoc]
    by_cases ha : a = q
    · rw [if_pos ha, lookupAssoc, lookupAssoc, if_neg hne, if_neg (ha ▸ hne)]
    · rw [if_neg ha, lookupAssoc, lookupAssoc]
      by_cases hap : a = p
      · rw [if_pos hap, if_pos hap]
      · rw [if_neg hap, if_neg hap]
        exact ih

theorem fsLookupWriteSelf (fs : FileSystem) (p c : String) :
    fsLookup (fsWriteFile fs p c) p = some c := lookupWriteAssocSelf fs.files p c

theorem fsLookupWriteNe (fs : FileSystem) (p q c : String) (hne : q ≠ p) :
    fsLookup (fsWriteFile fs q c) p = fsLookup fs p := lookupWriteAssocNe fs.files p q c hne

theorem indexFilePathInj (root c1 c2 : String)
    (h : indexFilePath root c1 = indexFilePath root c2) : c1 = c2 := by
  have hd := congrArg String.data h
  simp only [indexFilePath, pathJoin, String.data_append, List.append_assoc] at hd
  have h1 := List.append_cancel_left hd
  have h2 := List.append_cancel_left h1
  exact String.ext (List.append_cancel_right h2)

theorem stepPreservesIndex (root : String) (tm : TypeMap) (d : String)
    (info : ParsedDeclaration) (fs : FileSystem) (p x : String)
    (hdoc : declarationDocPath root info ≠ p)
    (hx : fsLookup fs p = some x) :
    fsLookup (writeDeclarationDoc root tm d fs info) p = some x := by
  unfold writeDeclarationDoc
  dsimp only
  have hg1 : fsLookup (if fs.dirs.contains (pathJoin root info.info.category) then fs
      else fsMkdir fs (pathJoin root info.info.category)) p = some x := by
    by_cases hc : fs.dirs.contains (pathJoin root info.info.category) = true
    · rw [if_pos hc]; exact hx
    · rw [if_neg hc]; exact hx
  set g1 := if fs.dirs.contains (pathJoin root info.info.category) then fs
    else fsMkdir fs (pathJoin root info.info.category) with hg1def
  by_cases hip : pathJoin (pathJoin root info.info.category) "_index.md" = p
  · have hex : fsExistsFile g1 (pathJoin (pathJoin root info.info.category) "_index.md")
        = true := by
      show (fsLookup g1 _).isSome = true
      rw [hip, hg1]
      rfl
    rw [if_pos hex]
    exact (fsLookupWriteNe g1 p _ _ hdoc).trans hg1
  · by_cases hex : fsExistsFile g1 (pathJoin (pathJoin root info.info.category) "_index.md")
        = true
    · rw [if_pos hex]
      exact (fsLookupWriteNe g1 p _ _ hdoc).trans hg1
    · rw [if_neg hex]
      exact (fsLookupWriteNe _ p _ _ hdoc).trans ((fsLookupWriteNe g1 p _ _ hip).trans hg1)

theorem stepPreservesAbsent (root : String) (tm : TypeMap) (d : String)
    (info : ParsedDeclaration) (fs : FileSystem) (c : String)
    (hdoc : declarationDocPath root info ≠ indexFilePath root c)
    (hcat : info.info.category ≠ c)
    (hx : fsLookup fs (indexFilePath root c) = none) :
    fsLookup (writeDeclarationDoc root tm d fs info) (indexFilePath root c) = none := by
  have hipne : pathJoin (pathJoin root info.info.category) "_index.md" ≠ indexFilePath root c :=
    fun h => hcat (indexFilePathInj root info.info.category c h)
  unfold writeDeclarationDoc
  dsimp only
  have hg1 : fsLookup (if fs.dirs.contains (pathJoin root info.info.category) then fs
      else fsMkdir fs (pathJoin root info.info.category)) (indexFilePath root c) = none := by
    by_cases hc : fs.dirs.contains (pathJoin root info.info.category) = true
    · rw [if_pos hc]; exact hx
    · rw [if_neg hc]; exact hx
  set g1 := if fs.dirs.contains (pathJoin root info.info.category) then fs
    else fsMkdir fs (pathJoin root info.info.category) with hg1def
  by_cases hex : fsExistsFile g1 (pathJoin (pathJoin root info.info.category) "_index.md") = true
  · rw [if_pos hex]
    exact (fsLookupWriteNe g1 _ _ _ hdoc).trans hg1
  · rw [if_neg hex]
    exact (fsLookupWriteNe _ _ _ _ hdoc).trans ((fsLookupWriteNe g1 _ _ _ hipne).trans hg1)

theorem stepCreatesIndex (root : String) (tm : TypeMap) (d : String)
    (info : ParsedDeclaration) (fs : FileSystem) (c : String)
    (hdoc : declarationDocPath root info ≠ indexFilePath root c)
    (hcat : info.info.category = c)
    (hx : fsLookup fs (indexFilePath root c) = none) :
    fsLookup (writeDeclarationDoc root tm d fs info) (indexFilePath root c)
      = some (categoryIndexContent c d) := by
  unfold writeDeclarationDoc
  dsimp only
  subst hcat
  have hg1 : fsLookup (if fs.dirs.contains (pathJoin root info.info.category) then fs
      else fsMkdir fs (pathJoin root info.info.category)) (indexFilePath root info.info.category)
      = none := by
    by_cases hc : fs.dirs.contains (pathJoin root info.info.category) = true
    · rw [if_pos hc]; exact hx
    · rw [if_neg hc]; exact hx
  set g1 := if fs.dirs.contains (pathJoin root info.info.category) then fs
    else fsMkdir fs (pathJoin root info.info.category) with hg1def
  have hex : fsExistsFile g1 (pathJoin (pathJoin root info.info.category) "_index.md") = false := by
    show (fsLookup g1 _).isSome = false
    show (fsLookup g1 (indexFilePath root info.info.category)).isSome = false
    rw [hg1]
    rfl
  rw [if_neg (by simp [hex])]
  exact (fsLookupWriteNe _ _ _ _ hdoc).trans (fsLookupWriteSelf g1 _ _)

theorem stepWritesDoc (root : String) (tm : TypeMap) (d : String)
    (info : ParsedDeclaration) (fs : FileSystem) :
    fsLookup (writeDeclarationDoc root tm d fs info) (declarationDocPath root info)
      = some (renderDeclaration info tm d) := by
  unfold writeDeclarationDoc
  exact fsLookupWriteSelf _ (declarationDocPath root info) _

theorem foldPreservesIndex (root : String) (tm : TypeMap) (d : String)
    (infos : List ParsedDeclaration) (fs0 : FileSystem) (c x : String)
    (hno : ∀ i ∈ infos, declarationDocPath root i ≠ indexFilePath root c)
    (hx : fsLookup fs0 (indexFilePath root c) = some x) :
    fsLookup (infos.foldl (writeDeclarationDoc root tm d) fs0) (indexFilePath root c)
      = some x := by
  induction infos generalizing fs0 with
  | nil => exact hx
  | cons i is ih =>
    rw [List.foldl_cons]
    exact ih _ (fun j hj => hno j (List.mem_cons_of_mem i hj))
      (stepPreservesIndex root tm d i fs0 _ x (hno i (List.mem_cons_self i is)) hx)

theorem foldCreatesIndex (root : String) (tm : TypeMap) (d : String)
    (infos : List ParsedDeclaration) (fs0 : FileSystem) (c : String)
    (hno : ∀ i ∈ infos, declarationDocPath root i ≠ indexFilePath root c)
    (hx : fsLookup fs0 (indexFilePath root c) = none)
    (hsome : ∃ i ∈ infos, i.info.category = c) :
    fsLookup (infos.foldl (writeDeclarationDoc root tm d) fs0) (indexFilePath root c)
      = some (categoryIndexContent c d) := by
  induction infos generalizing fs0 with
  | nil =>
    obtain ⟨i, hi, _⟩ := hsome
    cases hi
  | cons i is ih =>
    rw [List.foldl_cons]
    by_cases hcat : i.info.category = c
    · exact foldPreservesIndex root tm d is _ c _
        (fun j hj => hno j (List.mem_cons_of_mem i hj))
        (stepCreatesIndex root tm d i fs0 c (hno i (List.mem_cons_self i is)) hcat hx)
    · obtain ⟨j, hj, hjc⟩ := hsome
      rcases List.mem_cons.mp hj with hji | hjm
      · exact absurd (hji ▸ hjc) hcat
      · exact ih _ (fun k hk => hno k (List.mem_cons_of_mem i hk))
          (stepPreservesAbsent root tm d i fs0 c (hno i (List.mem_cons_self i is)) hcat hx)
          ⟨j, hjm, hjc⟩

/-- C9 counterexample: with two interfaces `Foo` and `_index` in category
`c`, the category index at `out/c/_index.md` is created while processing
`Foo` and then overwritten by the unconditional per-declaration write for
`_index` (whose derived file name is `_index`), so it no longer holds the
minimal index content. -/
theorem indexOverwrittenByUnderscoreIndex_cex :
    (fsLookup ((generateDocs
        [⟨.interfaceDeclaration "Foo" [] [⟨"docsCategory", some "c"⟩] [], "f.ts", 1⟩,
         ⟨.interfaceDeclaration "_index" [] [⟨"docsCategory", some "c"⟩] [], "f.ts", 5⟩]
        "out" [] emptyFS "D").2) "out/c/_index.md").isSome = true
    ∧ fsLookup ((generateDocs
        [⟨.interfaceDeclaration "Foo" [] [⟨"docsCategory", some "c"⟩] [], "f.ts", 1⟩,
         ⟨.interfaceDeclaration "_index" [] [⟨"docsCategory", some "c"⟩] [], "f.ts", 5⟩]
        "out" [] emptyFS "D").2) "out/c/_index.md"
      ≠ some (categoryIndexContent "c" "D") := by
  refine ⟨by decide, by decide⟩

/-- C9 (amended): within a run, a category's index document is created with
the minimal heading and generation metadata only when it does not already
exist, and it is never overwritten by a later index-creation step; provided
no declaration's document path collides with the index path (a declaration
titled `_index` does collide), an existing index survives the whole run
unchanged and a missing one ends up with exactly the minimal content; while
each per-declaration document is written unconditionally, overwriting
whatever was at its path. -/
theorem indexFileCreationPolicy (root : String) (tm : TypeMap) (d : String)
    (infos : List ParsedDeclaration) (fs0 fs : FileSystem) (c x : String)
    (i0 : ParsedDeclaration)
    (hno : ∀ i ∈ infos, declarationDocPath root i ≠ indexFilePath root c) :
    (fsLookup fs0 (indexFilePath root c) = some x →
      fsLookup (infos.foldl (writeDeclarationDoc root tm d) fs0) (indexFilePath root c)
        = some x)
    ∧ (fsLookup fs0 (indexFilePath root c) = none →
        (∃ i ∈ infos, i.info.category = c) →
        fsLookup (infos.foldl (writeDeclarationDoc root tm d) fs0) (indexFilePath root c)
          = some (categoryIndexContent c d))
    ∧ fsLookup (writeDeclarationDoc root tm d fs i0) (declarationDocPath root i0)
        = some (renderDeclaration i0 tm d) :=
  ⟨fun hx => foldPreservesIndex root tm d infos fs0 c x hno hx,
   fun hx hsome => foldCreatesIndex root tm d infos fs0 c hno hx hsome,
   stepWritesDoc root tm d i0 fs⟩

/-- Witness for C9 at concrete inputs: a pre-existing, marker-free index file
survives a run that emits one declaration into its category, and the
declaration document itself is written over an empty tree. -/
theorem indexFileCreationPolicy_witness :
    fsLookup
      ([({ info := { sourceFile := "f.ts", sourceLine := 1, title := "Foo",
                     fullText := "Foo", weight := some 10, category := "cat1",
                     description := "", fileName := "foo" },
           detail := .interfaceKind [] } : ParsedDeclaration)].foldl
        (writeDeclarationDoc "out" [] "D")
        { dirs := [], files := [("out/cat1/_index.md", "KEEP")] })
      "out/cat1/_index.md" = some "KEEP"
    ∧ fsLookup
        (writeDeclarationDoc "out" [] "D" emptyFS
          ({ info := { sourceFile := "f.ts", sourceLine := 1, title := "Foo",
                       fullText := "Foo", weight := some 10, category := "cat1",
                       description := "", fileName := "foo" },
             detail := .interfaceKind [] } : ParsedDeclaration))
        "out/cat1/foo.md"
      = some (renderDeclaration
          { info := { sourceFile := "f.ts", sourceLine := 1, title := "Foo",
                      fullText := "Foo", weight := some 10, category := "cat1",
                      description := "", fileName := "foo" },
            detail := .interfaceKind [] } [] "D") :=
  ⟨(indexFileCreationPolicy "out" [] "D"
      [{ info := { sourceFile := "f.ts", sourceLine := 1, title := "Foo",
                   fullText := "Foo", weight := some 10, category := "cat1",
                   description := "", fileName := "foo" },
         detail := .interfaceKind [] }]
      { dirs := [], files := [("out/cat1/_index.md", "KEEP")] } emptyFS "cat1" "KEEP"
      { info := { sourceFile := "f.ts", sourceLine := 1, title := "Foo",
                  fullText := "Foo", weight := some 10, category := "cat1",
                  description := "", fileName := "foo" },
        detail := .interfaceKind [] }
      (by decide)).1 (by decide),
   (indexFileCreationPolicy "out" [] "D"
      [{ info := { sourceFile := "f.ts", sourceLine := 1, title := "Foo",
                   fullText := "Foo", weight := some 10, category := "cat1",
                   description := "", fileName := "foo" },
         detail := .interfaceKind [] }]
      { dirs := [], files := [("out/cat1/_index.md", "KEEP")] } emptyFS "cat1" "KEEP"
      { info := { sourceFile := "f.ts", sourceLine := 1, title := "Foo",
                  fullText := "Foo", weight := some 10, category := "cat1",
                  description := "", fileName := "foo" },
        detail := .interfaceKind [] }
      (by decide)).2.2⟩
